import Mathlib

/-!
Verification of the I-DT fixation segmenter (`src/fixation3d.py`).

The program is embedded shallowly: floating-point sample coordinates are
modelled as rationals, the pandas DataFrame input as a list of `Sample`
records, and the output DataFrame as a list of `Fixation` records.  The
per-sample loop body of `extract_fixations` becomes the `step` function on
an explicit `SegState`; running the loop is a left fold over the input.
-/

/-- One gaze sample: a row of the input data with fields `timestamp`,
`direction_x/y/z` and `origin_x/y/z`. -/
structure Sample where
  timestamp : ℚ
  direction_x : ℚ
  direction_y : ℚ
  direction_z : ℚ
  origin_x : ℚ
  origin_y : ℚ
  origin_z : ℚ
deriving DecidableEq

/-- Python `max(l)` on a (nonempty) list; 0 is a junk value for `[]`,
where the source would raise. -/
def listMax : List ℚ → ℚ
  | [] => 0
  | x :: xs => xs.foldl max x

/-- Python `min(l)` on a (nonempty) list; 0 is a junk value for `[]`. -/
def listMin : List ℚ → ℚ
  | [] => 0
  | x :: xs => xs.foldl min x

/-- `is_fixation_idt(gaze_points, fixation_size)`: the dispersion test.
Returns whether the largest per-axis range (max − min over X, Y, Z of the
direction components) is strictly below `fixation_size`. -/
def is_fixation_idt (gaze_points : List Sample) (fixation_size : ℚ) : Bool :=
  let X := gaze_points.map Sample.direction_x
  let Y := gaze_points.map Sample.direction_y
  let Z := gaze_points.map Sample.direction_z
  decide (listMax [listMax X - listMin X, listMax Y - listMin Y,
                   listMax Z - listMin Z] < fixation_size)

/-- One output row of `extract_fixations`: columns
`start, end, x, y, z, origin_x, origin_y, origin_z`.
(`end` is a Lean keyword, hence the guillemets.) -/
structure Fixation where
  start : ℚ
  «end» : ℚ
  x : ℚ
  y : ℚ
  z : ℚ
  origin_x : ℚ
  origin_y : ℚ
  origin_z : ℚ
deriving DecidableEq

/-- `np.mean` of a list of rationals (sum divided by length; junk 0 on `[]`,
where numpy would produce NaN). -/
def npMean (l : List ℚ) : ℚ := l.sum / (l.length : ℚ)

/-- Junk sample used as the default of `List.headD`/`List.getLastD` at spots
the source only reaches with a nonempty list. -/
def dSample : Sample := ⟨0, 0, 0, 0, 0, 0, 0⟩

/-- The record appended to `fixations` when a fixation is saved:
`start`/`end` are the timestamps of the first/last window sample, the other
columns are `np.mean` of the corresponding component over the window. -/
def mkFixation (w : List Sample) : Fixation :=
  { start := (w.headD dSample).timestamp
    «end» := (w.getLastD dSample).timestamp
    x := npMean (w.map Sample.direction_x)
    y := npMean (w.map Sample.direction_y)
    z := npMean (w.map Sample.direction_z)
    origin_x := npMean (w.map Sample.origin_x)
    origin_y := npMean (w.map Sample.origin_y)
    origin_z := npMean (w.map Sample.origin_z) }

/-- The loop state of `extract_fixations`: the pre-fixation queue
`gaze_points_queue`, the active window `fixation`, the emitted records
`fixations`, and the flag `processing_fixation`. -/
structure SegState where
  gaze_points_queue : List Sample
  fixation : List Sample
  fixations : List Fixation
  processing_fixation : Bool
deriving DecidableEq

/-- State at loop entry: empty queue, empty window, no records, not
processing. -/
def initState : SegState := ⟨[], [], [], false⟩

/-- Python `l[-n:]`: the last `n` elements; for `n = 0` the slice is the
whole list (the slice `l[0:]`), not the empty list. -/
def lastSlice (n : Nat) (l : List Sample) : List Sample :=
  if n = 0 then l else l.drop (l.length - n)

/-- The body of the `for i in range(len(timestamps))` loop of
`extract_fixations`, processing one sample. -/
def step (min_points_per_fixation : Nat)
    (min_fixation_size max_fixation_size : ℚ)
    (s : SegState) (samp : Sample) : SegState :=
  if s.processing_fixation = false then
    -- add points to the queue until we have enough points to start counting
    let q := s.gaze_points_queue ++ [samp]
    if min_points_per_fixation ≤ q.length then
      -- keep the newest min_points_per_fixation points
      let q2 := lastSlice min_points_per_fixation q
      if is_fixation_idt q2 min_fixation_size then
        { s with gaze_points_queue := q2, fixation := q2,
                 processing_fixation := true }
      else
        { s with gaze_points_queue := q2 }
    else
      { s with gaze_points_queue := q }
  else
    -- add points to the fixation
    let f := s.fixation ++ [samp]
    if is_fixation_idt f max_fixation_size then
      { s with fixation := f }
    else
      -- fixation ended: put the outlier back into an empty queue,
      -- save the fixation, reset
      { gaze_points_queue := [f.getLastD dSample]
        fixation := []
        fixations := s.fixations ++ [mkFixation f.dropLast]
        processing_fixation := false }

/-- The loop of `extract_fixations` run over the whole input. -/
def runSeg (min_points_per_fixation : Nat)
    (min_fixation_size max_fixation_size : ℚ)
    (data : List Sample) : SegState :=
  data.foldl (step min_points_per_fixation min_fixation_size max_fixation_size)
    initState

/-- `extract_fixations(data, min_points_per_fixation, min_fixation_size,
max_fixation_size)`: the returned DataFrame as a list of `Fixation` rows. -/
def extract_fixations (data : List Sample)
    (min_points_per_fixation : Nat)
    (min_fixation_size max_fixation_size : ℚ) : List Fixation :=
  (runSeg min_points_per_fixation min_fixation_size max_fixation_size
    data).fixations

/-- Timestamp invariant carried through the run: `c` bounds every
timestamp seen so far.  Emitted ends are sorted, each record has
`start ≤ end`, every end precedes every buffered sample's timestamp,
buffer timestamps are non-decreasing and bounded by `c`, and the fixation
window is nonempty while processing. -/
def SegInv (s : SegState) (c : ℚ) : Prop :=
  (s.fixations.map Fixation.«end»).Pairwise (· ≤ ·)
  ∧ (∀ r ∈ s.fixations, r.start ≤ r.«end»)
  ∧ (∀ r ∈ s.fixations, r.«end» ≤ c)
  ∧ (∀ r ∈ s.fixations, ∀ x ∈ s.fixation, r.«end» ≤ x.timestamp)
  ∧ (∀ r ∈ s.fixations, ∀ x ∈ s.gaze_points_queue, r.«end» ≤ x.timestamp)
  ∧ (s.fixation.map Sample.timestamp).Pairwise (· ≤ ·)
  ∧ (s.gaze_points_queue.map Sample.timestamp).Pairwise (· ≤ ·)
  ∧ (∀ x ∈ s.fixation, x.timestamp ≤ c)
  ∧ (∀ x ∈ s.gaze_points_queue, x.timestamp ≤ c)
  ∧ (s.processing_fixation = true → s.fixation ≠ [])

/-! ### Elementary facts about the Python `max`/`min` of a list -/

lemma foldl_max_init (l : List ℚ) : ∀ a : ℚ, a ≤ l.foldl max a := by
  induction l with
  | nil => intro a; exact le_refl a
  | cons b t ih =>
    intro a
    exact le_trans (le_max_left a b) (ih (max a b))

lemma le_foldl_max (l : List ℚ) : ∀ a x : ℚ, x ∈ l → x ≤ l.foldl max a := by
  induction l with
  | nil => intro a x hx; simp at hx
  | cons b t ih =>
    intro a x hx
    simp only [List.foldl_cons]
    rcases List.mem_cons.mp hx with h | h
    · subst h
      exact le_trans (le_max_right a x) (foldl_max_init t (max a x))
    · exact ih (max a b) x h

lemma foldl_max_mem (l : List ℚ) (a : ℚ) :
    l.foldl max a = a ∨ l.foldl max a ∈ l := by
  induction l generalizing a with
  | nil => exact Or.inl rfl
  | cons b t ih =>
    simp only [List.foldl_cons]
    rcases ih (max a b) with h | h
    · rcases max_choice a b with hab | hab
      · exact Or.inl (h.trans hab)
      · exact Or.inr (List.mem_cons.mpr (Or.inl (h.trans hab)))
    · exact Or.inr (List.mem_cons.mpr (Or.inr h))

lemma foldl_min_init (l : List ℚ) : ∀ a : ℚ, l.foldl min a ≤ a := by
  induction l with
  | nil => intro a; exact le_refl a
  | cons b t ih =>
    intro a
    exact le_trans (ih (min a b)) (min_le_left a b)

lemma foldl_min_le (l : List ℚ) : ∀ a x : ℚ, x ∈ l → l.foldl min a ≤ x := by
  induction l with
  | nil => intro a x hx; simp at hx
  | cons b t ih =>
    intro a x hx
    simp only [List.foldl_cons]
    rcases List.mem_cons.mp hx with h | h
    · subst h
      exact le_trans (foldl_min_init t (min a x)) (min_le_right a x)
    · exact ih (min a b) x h

lemma foldl_min_mem (l : List ℚ) (a : ℚ) :
    l.foldl min a = a ∨ l.foldl min a ∈ l := by
  induction l generalizing a with
  | nil => exact Or.inl rfl
  | cons b t ih =>
    simp only [List.foldl_cons]
    rcases ih (min a b) with h | h
    · rcases min_choice a b with hab | hab
      · exact Or.inl (h.trans hab)
      · exact Or.inr (List.mem_cons.mpr (Or.inl (h.trans hab)))
    · exact Or.inr (List.mem_cons.mpr (Or.inr h))

lemma le_listMax {l : List ℚ} {x : ℚ} (h : x ∈ l) : x ≤ listMax l := by
  cases l with
  | nil => simp at h
  | cons a t =>
    rcases List.mem_cons.mp h with h | h
    · exact h ▸ foldl_max_init t a
    · exact le_foldl_max t a x h

lemma listMax_mem {l : List ℚ} (h : l ≠ []) : listMax l ∈ l := by
  cases l with
  | nil => exact absurd rfl h
  | cons a t =>
    rcases foldl_max_mem t a with h' | h'
    · exact List.mem_cons.mpr (Or.inl h')
    · exact List.mem_cons.mpr (Or.inr h')

lemma listMin_le {l : List ℚ} {x : ℚ} (h : x ∈ l) : listMin l ≤ x := by
  cases l with
  | nil => simp at h
  | cons a t =>
    rcases List.mem_cons.mp h with h | h
    · exact h ▸ foldl_min_init t a
    · exact foldl_min_le t a x h

lemma listMin_mem {l : List ℚ} (h : l ≠ []) : listMin l ∈ l := by
  cases l with
  | nil => exact absurd rfl h
  | cons a t =>
    rcases foldl_min_mem t a with h' | h'
    · exact List.mem_cons.mpr (Or.inl h')
    · exact List.mem_cons.mpr (Or.inr h')

/-- On a nonempty list, the range is below `t` iff every pairwise
difference is. -/
lemma range_lt_iff (l : List ℚ) (hl : l ≠ []) (t : ℚ) :
    listMax l - listMin l < t ↔ ∀ x ∈ l, ∀ y ∈ l, x - y < t := by
  constructor
  · intro h x hx y hy
    have h1 : x ≤ listMax l := le_listMax hx
    have h2 : listMin l ≤ y := listMin_le hy
    linarith
  · intro h
    exact h _ (listMax_mem hl) _ (listMin_mem hl)

lemma map_dx_ne_nil {w : List Sample} (hw : w ≠ []) :
    w.map Sample.direction_x ≠ [] := by
  cases w with
  | nil => exact absurd rfl hw
  | cons a t => simp

lemma map_dy_ne_nil {w : List Sample} (hw : w ≠ []) :
    w.map Sample.direction_y ≠ [] := by
  cases w with
  | nil => exact absurd rfl hw
  | cons a t => simp

lemma map_dz_ne_nil {w : List Sample} (hw : w ≠ []) :
    w.map Sample.direction_z ≠ [] := by
  cases w with
  | nil => exact absurd rfl hw
  | cons a t => simp

/-- Unfolding of the dispersion test: the outer Python `max` of the three
per-axis ranges is the binary `max` of the ranges. -/
lemma is_fixation_idt_eq_true_iff (w : List Sample) (t : ℚ) :
    is_fixation_idt w t = true ↔
      max (max
        (listMax (w.map Sample.direction_x) - listMin (w.map Sample.direction_x))
        (listMax (w.map Sample.direction_y) - listMin (w.map Sample.direction_y)))
        (listMax (w.map Sample.direction_z) - listMin (w.map Sample.direction_z))
        < t := by
  simp [is_fixation_idt, listMax, List.foldl_cons, List.foldl_nil]

/-- C3: for every non-empty window and every threshold, `is_fixation_idt`
returns `true` iff the maximum over the three direction axes of
(axis max − axis min) is strictly below the threshold; equivalently, iff
every pairwise difference of direction components within the window is
below the threshold on each axis.  (Determinism and absence of side
effects are inherent: the test is a pure function of its arguments.) -/
theorem dispersion_test_spec (w : List Sample) (hw : w ≠ []) (t : ℚ) :
    (is_fixation_idt w t = true ↔
      max (max
        (listMax (w.map Sample.direction_x) - listMin (w.map Sample.direction_x))
        (listMax (w.map Sample.direction_y) - listMin (w.map Sample.direction_y)))
        (listMax (w.map Sample.direction_z) - listMin (w.map Sample.direction_z))
        < t)
    ∧ (is_fixation_idt w t = true ↔
      ∀ a ∈ w, ∀ b ∈ w,
        a.direction_x - b.direction_x < t ∧
        a.direction_y - b.direction_y < t ∧
        a.direction_z - b.direction_z < t) := by
  refine ⟨is_fixation_idt_eq_true_iff w t, ?_⟩
  rw [is_fixation_idt_eq_true_iff w t, max_lt_iff, max_lt_iff,
    range_lt_iff _ (map_dx_ne_nil hw), range_lt_iff _ (map_dy_ne_nil hw),
    range_lt_iff _ (map_dz_ne_nil hw)]
  constructor
  · rintro ⟨⟨hX, hY⟩, hZ⟩ a ha b hb
    exact ⟨hX _ (List.mem_map_of_mem _ ha) _ (List.mem_map_of_mem _ hb),
           hY _ (List.mem_map_of_mem _ ha) _ (List.mem_map_of_mem _ hb),
           hZ _ (List.mem_map_of_mem _ ha) _ (List.mem_map_of_mem _ hb)⟩
  · intro h
    refine ⟨⟨?_, ?_⟩, ?_⟩ <;>
      · intro x hx y hy
        obtain ⟨a, ha, rfl⟩ := List.mem_map.mp hx
        obtain ⟨b, hb, rfl⟩ := List.mem_map.mp hy
        first
          | exact (h a ha b hb).1
          | exact (h a ha b hb).2.1
          | exact (h a ha b hb).2.2

/-- Witness for C3 at the concrete window `[dSample]`, threshold 1. -/
theorem dispersion_test_spec_witness :
    ([dSample] : List Sample) ≠ [] ∧
    ((is_fixation_idt [dSample] 1 = true ↔
      max (max
        (listMax ([dSample].map Sample.direction_x)
          - listMin ([dSample].map Sample.direction_x))
        (listMax ([dSample].map Sample.direction_y)
          - listMin ([dSample].map Sample.direction_y)))
        (listMax ([dSample].map Sample.direction_z)
          - listMin ([dSample].map Sample.direction_z))
        < 1)
    ∧ (is_fixation_idt [dSample] 1 = true ↔
      ∀ a ∈ ([dSample] : List Sample), ∀ b ∈ ([dSample] : List Sample),
        a.direction_x - b.direction_x < 1 ∧
        a.direction_y - b.direction_y < 1 ∧
        a.direction_z - b.direction_z < 1)) :=
  ⟨by simp, dispersion_test_spec [dSample] (by simp) 1⟩

/-- C9: on an empty input sequence, `extract_fixations` returns the empty
list of `Fixation` records (and, being total, raises no error). -/
theorem extract_fixations_empty_input (min_points_per_fixation : Nat)
    (min_fixation_size max_fixation_size : ℚ) :
    extract_fixations [] min_points_per_fixation
      min_fixation_size max_fixation_size = [] := rfl

/-! ### The end-of-fixation transition -/

lemma headD_eq_head {l : List Sample} (d : Sample) (h : l ≠ []) :
    l.headD d = l.head h := by
  cases l with
  | nil => exact absurd rfl h
  | cons x t => rfl

lemma getLastD_eq_getLast {l : List Sample} (d : Sample) (h : l ≠ []) :
    l.getLastD d = l.getLast h := by
  rw [List.getLastD_eq_getLast?, List.getLast?_eq_getLast l h]
  rfl

/-- When the dispersion test fails while a fixation is being processed, the
step resets to a one-sample queue and appends the record of the window
without the just-appended sample. -/
lemma step_emit (min_points_per_fixation : Nat)
    (min_fixation_size max_fixation_size : ℚ)
    (s : SegState) (samp : Sample)
    (hproc : s.processing_fixation = true)
    (hfail : is_fixation_idt (s.fixation ++ [samp]) max_fixation_size
      = false) :
    step min_points_per_fixation min_fixation_size max_fixation_size s samp =
      { gaze_points_queue := [samp]
        fixation := []
        fixations := s.fixations ++ [mkFixation s.fixation]
        processing_fixation := false } := by
  simp [step, hproc, hfail, List.dropLast_concat]

/-- C1: a fixation ended by a failing dispersion test is summarized over
exactly the samples left in the window after the disqualifying sample is
removed: `start`/`end` are the first/last timestamps of that window and
the six coordinate fields are the arithmetic means of the corresponding
direction and origin components. -/
theorem emitted_record_fields (min_points_per_fixation : Nat)
    (min_fixation_size max_fixation_size : ℚ)
    (s : SegState) (samp : Sample)
    (hproc : s.processing_fixation = true)
    (hfail : is_fixation_idt (s.fixation ++ [samp]) max_fixation_size
      = false)
    (hne : s.fixation ≠ []) :
    (step min_points_per_fixation min_fixation_size max_fixation_size s
        samp).fixations =
      s.fixations ++
        [{ start := (s.fixation.head hne).timestamp
           «end» := (s.fixation.getLast hne).timestamp
           x := (s.fixation.map Sample.direction_x).sum
                  / (s.fixation.length : ℚ)
           y := (s.fixation.map Sample.direction_y).sum
                  / (s.fixation.length : ℚ)
           z := (s.fixation.map Sample.direction_z).sum
                  / (s.fixation.length : ℚ)
           origin_x := (s.fixation.map Sample.origin_x).sum
                  / (s.fixation.length : ℚ)
           origin_y := (s.fixation.map Sample.origin_y).sum
                  / (s.fixation.length : ℚ)
           origin_z := (s.fixation.map Sample.origin_z).sum
                  / (s.fixation.length : ℚ) }] := by
  rw [step_emit _ _ _ _ _ hproc hfail]
  simp only [mkFixation, npMean, headD_eq_head dSample hne,
    getLastD_eq_getLast dSample hne, List.length_map]

/-- Witness for C1: a two-sample fixation at direction 0 ended by an
outlier at direction 10 (threshold 2). -/
theorem emitted_record_fields_witness :
    (SegState.mk [] [⟨0,0,0,0,0,0,0⟩, ⟨1,0,0,0,2,4,6⟩] [] true
        ).processing_fixation = true ∧
    is_fixation_idt
      ((SegState.mk [] [⟨0,0,0,0,0,0,0⟩, ⟨1,0,0,0,2,4,6⟩] [] true).fixation
        ++ [⟨2,10,10,10,0,0,0⟩]) 2 = false ∧
    (step 2 1 2 (SegState.mk [] [⟨0,0,0,0,0,0,0⟩, ⟨1,0,0,0,2,4,6⟩] [] true)
        ⟨2,10,10,10,0,0,0⟩).fixations =
      [] ++
        [{ start := (([⟨0,0,0,0,0,0,0⟩, ⟨1,0,0,0,2,4,6⟩] :
              List Sample).head (by simp)).timestamp
           «end» := (([⟨0,0,0,0,0,0,0⟩, ⟨1,0,0,0,2,4,6⟩] :
              List Sample).getLast (by simp)).timestamp
           x := (([⟨0,0,0,0,0,0,0⟩, ⟨1,0,0,0,2,4,6⟩] :
              List Sample).map Sample.direction_x).sum / ((2 : Nat) : ℚ)
           y := (([⟨0,0,0,0,0,0,0⟩, ⟨1,0,0,0,2,4,6⟩] :
              List Sample).map Sample.direction_y).sum / ((2 : Nat) : ℚ)
           z := (([⟨0,0,0,0,0,0,0⟩, ⟨1,0,0,0,2,4,6⟩] :
              List Sample).map Sample.direction_z).sum / ((2 : Nat) : ℚ)
           origin_x := (([⟨0,0,0,0,0,0,0⟩, ⟨1,0,0,0,2,4,6⟩] :
              List Sample).map Sample.origin_x).sum / ((2 : Nat) : ℚ)
           origin_y := (([⟨0,0,0,0,0,0,0⟩, ⟨1,0,0,0,2,4,6⟩] :
              List Sample).map Sample.origin_y).sum / ((2 : Nat) : ℚ)
           origin_z := (([⟨0,0,0,0,0,0,0⟩, ⟨1,0,0,0,2,4,6⟩] :
              List Sample).map Sample.origin_z).sum / ((2 : Nat) : ℚ) }] :=
  ⟨rfl,
   by norm_num [is_fixation_idt, listMax, listMin],
   emitted_record_fields 2 1 2
     (SegState.mk [] [⟨0,0,0,0,0,0,0⟩, ⟨1,0,0,0,2,4,6⟩] [] true)
     ⟨2,10,10,10,0,0,0⟩ rfl
     (by norm_num [is_fixation_idt, listMax, listMin]) (by simp)⟩

/-- C2: the disqualifying sample is removed from the window before the
record is emitted (the record summarizes the window without it) and is
re-queued as the sole element of the new `Accumulating` queue, whose
length is therefore exactly 1. -/
theorem outlier_reseeds_queue (min_points_per_fixation : Nat)
    (min_fixation_size max_fixation_size : ℚ)
    (s : SegState) (samp : Sample)
    (hproc : s.processing_fixation = true)
    (hfail : is_fixation_idt (s.fixation ++ [samp]) max_fixation_size
      = false) :
    (step min_points_per_fixation min_fixation_size max_fixation_size s
        samp).gaze_points_queue = [samp] ∧
    (step min_points_per_fixation min_fixation_size max_fixation_size s
        samp).gaze_points_queue.length = 1 ∧
    (step min_points_per_fixation min_fixation_size max_fixation_size s
        samp).processing_fixation = false ∧
    (step min_points_per_fixation min_fixation_size max_fixation_size s
        samp).fixations = s.fixations ++ [mkFixation s.fixation] := by
  rw [step_emit _ _ _ _ _ hproc hfail]
  exact ⟨rfl, rfl, rfl, rfl⟩

/-- Witness for C2 at the same concrete boundary as the C1 witness. -/
theorem outlier_reseeds_queue_witness :
    (SegState.mk [] [⟨0,0,0,0,0,0,0⟩, ⟨1,0,0,0,2,4,6⟩] [] true
        ).processing_fixation = true ∧
    is_fixation_idt
      ((SegState.mk [] [⟨0,0,0,0,0,0,0⟩, ⟨1,0,0,0,2,4,6⟩] [] true).fixation
        ++ [⟨2,10,10,10,0,0,0⟩]) 2 = false ∧
    ((step 2 1 2 (SegState.mk [] [⟨0,0,0,0,0,0,0⟩, ⟨1,0,0,0,2,4,6⟩] [] true)
        ⟨2,10,10,10,0,0,0⟩).gaze_points_queue = [⟨2,10,10,10,0,0,0⟩] ∧
     (step 2 1 2 (SegState.mk [] [⟨0,0,0,0,0,0,0⟩, ⟨1,0,0,0,2,4,6⟩] [] true)
        ⟨2,10,10,10,0,0,0⟩).gaze_points_queue.length = 1 ∧
     (step 2 1 2 (SegState.mk [] [⟨0,0,0,0,0,0,0⟩, ⟨1,0,0,0,2,4,6⟩] [] true)
        ⟨2,10,10,10,0,0,0⟩).processing_fixation = false ∧
     (step 2 1 2 (SegState.mk [] [⟨0,0,0,0,0,0,0⟩, ⟨1,0,0,0,2,4,6⟩] [] true)
        ⟨2,10,10,10,0,0,0⟩).fixations =
       [] ++ [mkFixation [⟨0,0,0,0,0,0,0⟩, ⟨1,0,0,0,2,4,6⟩]]) :=
  ⟨rfl,
   by norm_num [is_fixation_idt, listMax, listMin],
   outlier_reseeds_queue 2 1 2
     (SegState.mk [] [⟨0,0,0,0,0,0,0⟩, ⟨1,0,0,0,2,4,6⟩] [] true)
     ⟨2,10,10,10,0,0,0⟩ rfl
     (by norm_num [is_fixation_idt, listMax, listMin])⟩

/-! ### Case analysis and invariant machinery for the step function -/

/-- Exhaustive case analysis of one step of the segmenter: grow queue
(below cap), start fixation, slide queue, grow fixation, end fixation. -/
lemma step_cases (min_points_per_fixation : Nat)
    (min_fixation_size max_fixation_size : ℚ)
    (s : SegState) (samp : Sample) (motive : SegState → Prop)
    (grow_queue : s.processing_fixation = false →
      ¬ min_points_per_fixation ≤ (s.gaze_points_queue ++ [samp]).length →
      motive { s with gaze_points_queue := s.gaze_points_queue ++ [samp] })
    (start_fix : s.processing_fixation = false →
      min_points_per_fixation ≤ (s.gaze_points_queue ++ [samp]).length →
      is_fixation_idt
        (lastSlice min_points_per_fixation (s.gaze_points_queue ++ [samp]))
        min_fixation_size = true →
      motive { s with
        gaze_points_queue :=
          lastSlice min_points_per_fixation (s.gaze_points_queue ++ [samp])
        fixation :=
          lastSlice min_points_per_fixation (s.gaze_points_queue ++ [samp])
        processing_fixation := true })
    (slide_queue : s.processing_fixation = false →
      min_points_per_fixation ≤ (s.gaze_points_queue ++ [samp]).length →
      is_fixation_idt
        (lastSlice min_points_per_fixation (s.gaze_points_queue ++ [samp]))
        min_fixation_size = false →
      motive { s with
        gaze_points_queue :=
          lastSlice min_points_per_fixation (s.gaze_points_queue ++ [samp]) })
    (grow_fix : s.processing_fixation = true →
      is_fixation_idt (s.fixation ++ [samp]) max_fixation_size = true →
      motive { s with fixation := s.fixation ++ [samp] })
    (end_fix : s.processing_fixation = true →
      is_fixation_idt (s.fixation ++ [samp]) max_fixation_size = false →
      motive { gaze_points_queue := [samp]
               fixation := []
               fixations := s.fixations ++ [mkFixation s.fixation]
               processing_fixation := false }) :
    motive (step min_points_per_fixation min_fixation_size max_fixation_size
      s samp) := by
  by_cases hp : s.processing_fixation = false
  · by_cases hlen :
      min_points_per_fixation ≤ (s.gaze_points_queue ++ [samp]).length
    · have hlen' :
          min_points_per_fixation ≤ s.gaze_points_queue.length + 1 := by
        simpa using hlen
      cases ht : is_fixation_idt
        (lastSlice min_points_per_fixation (s.gaze_points_queue ++ [samp]))
        min_fixation_size
      · simpa [step, hp, hlen', ht] using slide_queue hp hlen ht
      · simpa [step, hp, hlen', ht] using start_fix hp hlen ht
    · have hlen' :
          ¬ min_points_per_fixation ≤ s.gaze_points_queue.length + 1 := by
        simpa using hlen
      simpa [step, hp, hlen'] using grow_queue hp hlen
  · have hp' : s.processing_fixation = true := by
      cases h : s.processing_fixation
      · exact absurd h hp
      · rfl
    cases ht : is_fixation_idt (s.fixation ++ [samp]) max_fixation_size
    · have := step_emit min_points_per_fixation min_fixation_size
        max_fixation_size s samp hp' ht
      rw [this]
      exact end_fix hp' ht
    · simpa [step, hp, ht] using grow_fix hp' ht

/-- A property preserved by every step holds after folding any input. -/
lemma foldl_preserve (min_points_per_fixation : Nat)
    (min_fixation_size max_fixation_size : ℚ) (P : SegState → Prop)
    (hstep : ∀ s samp, P s →
      P (step min_points_per_fixation min_fixation_size max_fixation_size
        s samp)) :
    ∀ (input : List Sample) (s : SegState), P s →
      P (input.foldl
        (step min_points_per_fixation min_fixation_size max_fixation_size)
        s) := by
  intro input
  induction input with
  | nil => intro s hs; exact hs
  | cons a t ih =>
    intro s hs
    exact ih _ (hstep s a hs)

lemma length_lastSlice (n : Nat) (l : List Sample) (hn : n ≠ 0)
    (h : n ≤ l.length) : (lastSlice n l).length = n := by
  simp only [lastSlice, if_neg hn, List.length_drop]
  omega

lemma lastSlice_suffix (n : Nat) (l : List Sample) :
    lastSlice n l <:+ l := by
  by_cases hn : n = 0
  · simp [lastSlice, hn]
  · simp only [lastSlice, if_neg hn]
    exact List.drop_suffix _ l

/-! ### Queue-cap and window-size invariants -/

lemma step_queue_cap (min_points_per_fixation : Nat)
    (hmp : 1 ≤ min_points_per_fixation)
    (min_fixation_size max_fixation_size : ℚ) (s : SegState) (samp : Sample)
    (_hs : s.processing_fixation = false →
      s.gaze_points_queue.length ≤ min_points_per_fixation) :
    (step min_points_per_fixation min_fixation_size max_fixation_size s
      samp).processing_fixation = false →
    (step min_points_per_fixation min_fixation_size max_fixation_size s
      samp).gaze_points_queue.length ≤ min_points_per_fixation := by
  refine step_cases min_points_per_fixation min_fixation_size
    max_fixation_size s samp
    (fun st => st.processing_fixation = false →
      st.gaze_points_queue.length ≤ min_points_per_fixation)
    ?_ ?_ ?_ ?_ ?_
  · intro hp hlen _
    simp only [List.length_append, List.length_cons, List.length_nil]
      at hlen ⊢
    omega
  · intro hp hlen ht h
    simp at h
  · intro hp hlen ht _
    have hl := length_lastSlice min_points_per_fixation
      (s.gaze_points_queue ++ [samp]) (by omega) hlen
    simp [hl]
  · intro hp ht h
    simp only at h
    rw [hp] at h
    simp at h
  · intro hp ht _
    simpa using hmp

lemma runSeg_queue_cap (min_points_per_fixation : Nat)
    (hmp : 1 ≤ min_points_per_fixation)
    (min_fixation_size max_fixation_size : ℚ) (input : List Sample) :
    (runSeg min_points_per_fixation min_fixation_size max_fixation_size
      input).processing_fixation = false →
    (runSeg min_points_per_fixation min_fixation_size max_fixation_size
      input).gaze_points_queue.length ≤ min_points_per_fixation := by
  refine foldl_preserve min_points_per_fixation min_fixation_size
    max_fixation_size
    (fun st => st.processing_fixation = false →
      st.gaze_points_queue.length ≤ min_points_per_fixation)
    (fun s samp hs =>
      step_queue_cap min_points_per_fixation hmp min_fixation_size
        max_fixation_size s samp hs)
    input initState ?_
  intro _
  simp [initState]

lemma step_window_min (min_points_per_fixation : Nat)
    (hmp : 1 ≤ min_points_per_fixation)
    (min_fixation_size max_fixation_size : ℚ) (s : SegState) (samp : Sample)
    (hs : s.processing_fixation = true →
      min_points_per_fixation ≤ s.fixation.length) :
    (step min_points_per_fixation min_fixation_size max_fixation_size s
      samp).processing_fixation = true →
    min_points_per_fixation ≤
      (step min_points_per_fixation min_fixation_size max_fixation_size s
        samp).fixation.length := by
  refine step_cases min_points_per_fixation min_fixation_size
    max_fixation_size s samp
    (fun st => st.processing_fixation = true →
      min_points_per_fixation ≤ st.fixation.length)
    ?_ ?_ ?_ ?_ ?_
  · intro hp hlen h
    simp only at h
    rw [hp] at h
    simp at h
  · intro hp hlen ht _
    have hl := length_lastSlice min_points_per_fixation
      (s.gaze_points_queue ++ [samp]) (by omega) hlen
    simp [hl]
  · intro hp hlen ht h
    simp only at h
    rw [hp] at h
    simp at h
  · intro hp ht _
    have := hs hp
    simp only [List.length_append, List.length_cons, List.length_nil]
    omega
  · intro hp ht h
    simp at h

lemma runSeg_window_min (min_points_per_fixation : Nat)
    (hmp : 1 ≤ min_points_per_fixation)
    (min_fixation_size max_fixation_size : ℚ) (input : List Sample) :
    (runSeg min_points_per_fixation min_fixation_size max_fixation_size
      input).processing_fixation = true →
    min_points_per_fixation ≤
      (runSeg min_points_per_fixation min_fixation_size max_fixation_size
        input).fixation.length := by
  refine foldl_preserve min_points_per_fixation min_fixation_size
    max_fixation_size
    (fun st => st.processing_fixation = true →
      min_points_per_fixation ≤ st.fixation.length)
    (fun s samp hs =>
      step_window_min min_points_per_fixation hmp min_fixation_size
        max_fixation_size s samp hs)
    input initState ?_
  intro h
  simp [initState] at h

/-- C5: after any number of processed samples, while the segmenter is in
the `Accumulating` state the queue holds at most `min_points_per_fixation`
samples; and whenever the start-of-fixation dispersion test would run on
the next sample, the tested window has length exactly
`min_points_per_fixation` and consists of the most recent samples (it is a
suffix of queue-plus-new-sample). -/
theorem queue_cap_invariant (min_points_per_fixation : Nat)
    (hmp : 1 ≤ min_points_per_fixation)
    (min_fixation_size max_fixation_size : ℚ) (input : List Sample) :
    ((runSeg min_points_per_fixation min_fixation_size max_fixation_size
        input).processing_fixation = false →
      (runSeg min_points_per_fixation min_fixation_size max_fixation_size
        input).gaze_points_queue.length ≤ min_points_per_fixation)
    ∧ ∀ samp : Sample,
      (runSeg min_points_per_fixation min_fixation_size max_fixation_size
        input).processing_fixation = false →
      min_points_per_fixation ≤
        ((runSeg min_points_per_fixation min_fixation_size max_fixation_size
          input).gaze_points_queue ++ [samp]).length →
      (lastSlice min_points_per_fixation
        ((runSeg min_points_per_fixation min_fixation_size max_fixation_size
          input).gaze_points_queue ++ [samp])).length
        = min_points_per_fixation
      ∧ lastSlice min_points_per_fixation
        ((runSeg min_points_per_fixation min_fixation_size max_fixation_size
          input).gaze_points_queue ++ [samp])
        <:+ ((runSeg min_points_per_fixation min_fixation_size
          max_fixation_size input).gaze_points_queue ++ [samp]) := by
  refine ⟨runSeg_queue_cap min_points_per_fixation hmp min_fixation_size
    max_fixation_size input, ?_⟩
  intro samp _ hlen
  exact ⟨length_lastSlice min_points_per_fixation _ (by omega) hlen,
    lastSlice_suffix min_points_per_fixation _⟩

/-- Witness for C5 on a concrete three-sample input. -/
theorem queue_cap_invariant_witness :
    1 ≤ 2 ∧
    ((runSeg 2 1 2 [⟨0,0,0,0,0,0,0⟩, ⟨1,5,5,5,0,0,0⟩, ⟨2,0,0,0,0,0,0⟩]
        ).processing_fixation = false →
      (runSeg 2 1 2 [⟨0,0,0,0,0,0,0⟩, ⟨1,5,5,5,0,0,0⟩, ⟨2,0,0,0,0,0,0⟩]
        ).gaze_points_queue.length ≤ 2) :=
  ⟨by decide,
   (queue_cap_invariant 2 (by decide) 1 2
     [⟨0,0,0,0,0,0,0⟩, ⟨1,5,5,5,0,0,0⟩, ⟨2,0,0,0,0,0,0⟩]).1⟩

/-- C7: `extract_fixations` is total (the embedding is a total function),
and the dispersion test is only ever invoked on non-empty windows: at the
start-test call site the trimmed queue has at least one sample (length
exactly `min_points_per_fixation ≥ 1`), and at the continue-test call site
the window has at least `min_points_per_fixation + 1` samples. -/
theorem dispersion_call_sites_nonempty (min_points_per_fixation : Nat)
    (hmp : 1 ≤ min_points_per_fixation)
    (min_fixation_size max_fixation_size : ℚ) (input : List Sample) :
    ((runSeg min_points_per_fixation min_fixation_size max_fixation_size
        input).processing_fixation = true →
      min_points_per_fixation ≤
        (runSeg min_points_per_fixation min_fixation_size max_fixation_size
          input).fixation.length)
    ∧ (∀ samp : Sample,
      (runSeg min_points_per_fixation min_fixation_size max_fixation_size
        input).processing_fixation = false →
      min_points_per_fixation ≤
        ((runSeg min_points_per_fixation min_fixation_size max_fixation_size
          input).gaze_points_queue ++ [samp]).length →
      lastSlice min_points_per_fixation
        ((runSeg min_points_per_fixation min_fixation_size max_fixation_size
          input).gaze_points_queue ++ [samp]) ≠ [])
    ∧ (∀ samp : Sample,
      (runSeg min_points_per_fixation min_fixation_size max_fixation_size
        input).processing_fixation = true →
      (runSeg min_points_per_fixation min_fixation_size max_fixation_size
          input).fixation ++ [samp] ≠ [] ∧
      min_points_per_fixation + 1 ≤
        ((runSeg min_points_per_fixation min_fixation_size max_fixation_size
          input).fixation ++ [samp]).length) := by
  refine ⟨runSeg_window_min min_points_per_fixation hmp min_fixation_size
    max_fixation_size input, ?_, ?_⟩
  · intro samp _ hlen
    have hl := length_lastSlice min_points_per_fixation _ (by omega) hlen
    intro hnil
    rw [hnil] at hl
    simp at hl
    omega
  · intro samp hproc
    have hfl := runSeg_window_min min_points_per_fixation hmp
      min_fixation_size max_fixation_size input hproc
    constructor
    · simp
    · simp only [List.length_append, List.length_cons, List.length_nil]
      omega

/-- Witness for C7: after two clustered samples the segmenter is
processing a fixation of at least 2 samples. -/
theorem dispersion_call_sites_nonempty_witness :
    1 ≤ 2 ∧
    ((runSeg 2 1 2 [⟨0,0,0,0,0,0,0⟩, ⟨1,0,0,0,0,0,0⟩]
        ).processing_fixation = true →
      2 ≤ (runSeg 2 1 2 [⟨0,0,0,0,0,0,0⟩, ⟨1,0,0,0,0,0,0⟩]
        ).fixation.length) :=
  ⟨by decide,
   (dispersion_call_sites_nonempty 2 (by decide) 1 2
     [⟨0,0,0,0,0,0,0⟩, ⟨1,0,0,0,0,0,0⟩]).1⟩

/-! ### Emission happens only at failing continue-tests -/

lemma step_no_emit (min_points_per_fixation : Nat)
    (min_fixation_size max_fixation_size : ℚ) (s : SegState) (samp : Sample)
    (h : s.processing_fixation = false ∨
      is_fixation_idt (s.fixation ++ [samp]) max_fixation_size = true) :
    (step min_points_per_fixation min_fixation_size max_fixation_size s
      samp).fixations = s.fixations := by
  refine step_cases min_points_per_fixation min_fixation_size
    max_fixation_size s samp (fun st => st.fixations = s.fixations)
    ?_ ?_ ?_ ?_ ?_
  · intro _ _; rfl
  · intro _ _ _; rfl
  · intro _ _ _; rfl
  · intro _ _; rfl
  · intro hp ht
    rcases h with h | h
    · rw [h] at hp
      simp at hp
    · rw [h] at ht
      simp at ht

/-- C4: a final sample processed while mid-`Accumulating`, or while the
fixation window still passes the continue-test, contributes no record:
appending it to the input leaves the output unchanged, and in general a
step changes the record list only when the continue-test fails during
`FixatingActive` (so buffers still open at end of input are discarded). -/
theorem end_of_stream_discard (min_points_per_fixation : Nat)
    (min_fixation_size max_fixation_size : ℚ) (input : List Sample)
    (samp : Sample)
    (h : (runSeg min_points_per_fixation min_fixation_size max_fixation_size
        input).processing_fixation = false ∨
      is_fixation_idt
        ((runSeg min_points_per_fixation min_fixation_size max_fixation_size
          input).fixation ++ [samp]) max_fixation_size = true) :
    extract_fixations (input ++ [samp]) min_points_per_fixation
        min_fixation_size max_fixation_size
      = extract_fixations input min_points_per_fixation
        min_fixation_size max_fixation_size
    ∧ ∀ s : SegState,
      (step min_points_per_fixation min_fixation_size max_fixation_size s
        samp).fixations ≠ s.fixations →
      s.processing_fixation = true ∧
        is_fixation_idt (s.fixation ++ [samp]) max_fixation_size
          = false := by
  constructor
  · unfold extract_fixations runSeg
    rw [List.foldl_append]
    simp only [List.foldl_cons, List.foldl_nil]
    exact step_no_emit min_points_per_fixation min_fixation_size
      max_fixation_size _ samp h
  · intro s hne
    cases hp : s.processing_fixation
    · exact absurd (step_no_emit min_points_per_fixation min_fixation_size
        max_fixation_size s samp (Or.inl hp)) hne
    · cases ht : is_fixation_idt (s.fixation ++ [samp]) max_fixation_size
      · exact ⟨rfl, rfl⟩
      · exact absurd (step_no_emit min_points_per_fixation min_fixation_size
          max_fixation_size s samp (Or.inr ht)) hne

/-- Witness for C4: two clustered samples start a fixation; a third close
sample keeps it qualifying, so it produces no trailing record. -/
theorem end_of_stream_discard_witness :
    ((runSeg 2 1 2 [⟨0,0,0,0,0,0,0⟩, ⟨1,0,0,0,0,0,0⟩]
        ).processing_fixation = false ∨
      is_fixation_idt
        ((runSeg 2 1 2 [⟨0,0,0,0,0,0,0⟩, ⟨1,0,0,0,0,0,0⟩]).fixation
          ++ [⟨2,0,0,0,0,0,0⟩]) 2 = true) ∧
    extract_fixations ([⟨0,0,0,0,0,0,0⟩, ⟨1,0,0,0,0,0,0⟩]
        ++ [⟨2,0,0,0,0,0,0⟩]) 2 1 2
      = extract_fixations [⟨0,0,0,0,0,0,0⟩, ⟨1,0,0,0,0,0,0⟩] 2 1 2 :=
  ⟨Or.inr (by norm_num [runSeg, step, initState, lastSlice,
      is_fixation_idt, listMax, listMin]),
   (end_of_stream_discard 2 1 2 [⟨0,0,0,0,0,0,0⟩, ⟨1,0,0,0,0,0,0⟩]
      ⟨2,0,0,0,0,0,0⟩
      (Or.inr (by norm_num [runSeg, step, initState, lastSlice,
        is_fixation_idt, listMax, listMin]))).1⟩

/-- C10: whenever a record is emitted (a failing continue-test at a
reachable `FixatingActive` state), the averaged window is the current
fixation window, which holds at least `min_points_per_fixation` samples. -/
theorem emitted_window_min_points (min_points_per_fixation : Nat)
    (hmp : 1 ≤ min_points_per_fixation)
    (min_fixation_size max_fixation_size : ℚ) (input : List Sample)
    (samp : Sample)
    (hproc : (runSeg min_points_per_fixation min_fixation_size
      max_fixation_size input).processing_fixation = true)
    (hfail : is_fixation_idt
      ((runSeg min_points_per_fixation min_fixation_size max_fixation_size
        input).fixation ++ [samp]) max_fixation_size = false) :
    (step min_points_per_fixation min_fixation_size max_fixation_size
        (runSeg min_points_per_fixation min_fixation_size max_fixation_size
          input) samp).fixations
      = (runSeg min_points_per_fixation min_fixation_size max_fixation_size
          input).fixations
        ++ [mkFixation (runSeg min_points_per_fixation min_fixation_size
          max_fixation_size input).fixation]
    ∧ min_points_per_fixation ≤
        (runSeg min_points_per_fixation min_fixation_size max_fixation_size
          input).fixation.length := by
  constructor
  · rw [step_emit min_points_per_fixation min_fixation_size
      max_fixation_size _ samp hproc hfail]
  · exact runSeg_window_min min_points_per_fixation hmp min_fixation_size
      max_fixation_size input hproc

/-- Witness for C10: the two-sample fixation ended by a far outlier is
averaged over at least 2 samples. -/
theorem emitted_window_min_points_witness :
    1 ≤ 2 ∧
    (runSeg 2 1 2 [⟨0,0,0,0,0,0,0⟩, ⟨1,0,0,0,0,0,0⟩]
      ).processing_fixation = true ∧
    is_fixation_idt
      ((runSeg 2 1 2 [⟨0,0,0,0,0,0,0⟩, ⟨1,0,0,0,0,0,0⟩]).fixation
        ++ [⟨2,10,10,10,0,0,0⟩]) 2 = false ∧
    2 ≤ (runSeg 2 1 2 [⟨0,0,0,0,0,0,0⟩, ⟨1,0,0,0,0,0,0⟩]
      ).fixation.length :=
  ⟨by decide,
   by norm_num [runSeg, step, initState, lastSlice, is_fixation_idt,
     listMax, listMin],
   by norm_num [runSeg, step, initState, lastSlice, is_fixation_idt,
     listMax, listMin],
   (emitted_window_min_points 2 (by decide) 1 2
      [⟨0,0,0,0,0,0,0⟩, ⟨1,0,0,0,0,0,0⟩] ⟨2,10,10,10,0,0,0⟩
      (by norm_num [runSeg, step, initState, lastSlice, is_fixation_idt,
        listMax, listMin])
      (by norm_num [runSeg, step, initState, lastSlice, is_fixation_idt,
        listMax, listMin])).2⟩

/-! ### C8: if the start test never passes, nothing is emitted -/

lemma step_accum_grow (min_points_per_fixation : Nat)
    (min_fixation_size max_fixation_size : ℚ) (s : SegState) (samp : Sample)
    (hp : s.processing_fixation = false)
    (hlen : ¬ min_points_per_fixation ≤
      (s.gaze_points_queue ++ [samp]).length) :
    step min_points_per_fixation min_fixation_size max_fixation_size s samp
      = { s with gaze_points_queue := s.gaze_points_queue ++ [samp] } := by
  have hlen' :
      ¬ min_points_per_fixation ≤ s.gaze_points_queue.length + 1 := by
    simpa using hlen
  simp [step, hp, hlen']

lemma step_accum_slide (min_points_per_fixation : Nat)
    (min_fixation_size max_fixation_size : ℚ) (s : SegState) (samp : Sample)
    (hp : s.processing_fixation = false)
    (hlen : min_points_per_fixation ≤
      (s.gaze_points_queue ++ [samp]).length)
    (ht : is_fixation_idt
      (lastSlice min_points_per_fixation (s.gaze_points_queue ++ [samp]))
      min_fixation_size = false) :
    step min_points_per_fixation min_fixation_size max_fixation_size s samp
      = { s with gaze_points_queue := lastSlice min_points_per_fixation (s.gaze_points_queue ++ [samp]) } := by
  have hlen' : min_points_per_fixation ≤ s.gaze_points_queue.length + 1 := by
    simpa using hlen
  simp [step, hp, hlen', ht]

lemma suffix_append_singleton {q pre : List Sample} (h : q <:+ pre)
    (a : Sample) : q ++ [a] <:+ pre ++ [a] := by
  obtain ⟨t, ht⟩ := h
  exact ⟨t, by rw [← List.append_assoc, ht]⟩

/-- While no sliding window of length `min_points_per_fixation` passes the
start test, the segmenter stays `Accumulating` with an unchanged record
list, and the queue remains a suffix of the consumed input. -/
lemma no_start_aux (min_points_per_fixation : Nat)
    (hmp : 1 ≤ min_points_per_fixation)
    (min_fixation_size max_fixation_size : ℚ) :
    ∀ (rest pre q f0 : List Sample) (fxs : List Fixation),
      q <:+ pre →
      q.length ≤ min_points_per_fixation →
      (∀ w : List Sample, w.length = min_points_per_fixation →
        w <:+: (pre ++ rest) →
        is_fixation_idt w min_fixation_size = false) →
      ∃ q' : List Sample,
        List.foldl
          (step min_points_per_fixation min_fixation_size max_fixation_size)
          ⟨q, f0, fxs, false⟩ rest = ⟨q', f0, fxs, false⟩
        ∧ q' <:+ (pre ++ rest) ∧ q'.length ≤ min_points_per_fixation := by
  intro rest
  induction rest with
  | nil =>
    intro pre q f0 fxs hsuf hlen _
    exact ⟨q, rfl, by simpa using hsuf, hlen⟩
  | cons a rest' ih =>
    intro pre q f0 fxs hsuf hlen h
    have happ : q ++ [a] <:+ pre ++ [a] := suffix_append_singleton hsuf a
    by_cases hl : min_points_per_fixation ≤ (q ++ [a]).length
    · have hq2len : (lastSlice min_points_per_fixation (q ++ [a])).length
          = min_points_per_fixation :=
        length_lastSlice min_points_per_fixation (q ++ [a]) (by omega) hl
      have hq2suf : lastSlice min_points_per_fixation (q ++ [a])
          <:+ pre ++ [a] :=
        (lastSlice_suffix min_points_per_fixation (q ++ [a])).trans happ
      have hq2inf : lastSlice min_points_per_fixation (q ++ [a])
          <:+: pre ++ (a :: rest') := by
        obtain ⟨t, ht⟩ := hq2suf
        refine ⟨t, rest', ?_⟩
        rw [ht]
        simp
      have htest : is_fixation_idt
          (lastSlice min_points_per_fixation (q ++ [a]))
          min_fixation_size = false :=
        h _ hq2len hq2inf
      have hstep := step_accum_slide min_points_per_fixation
        min_fixation_size max_fixation_size ⟨q, f0, fxs, false⟩ a rfl hl
        htest
      simp only [List.foldl_cons, hstep]
      obtain ⟨q', hfold, hsuf', hlen'⟩ :=
        ih (pre ++ [a]) (lastSlice min_points_per_fixation (q ++ [a])) f0
          fxs hq2suf (le_of_eq hq2len)
          (by
            intro w hw hinf
            refine h w hw ?_
            simpa [List.append_assoc] using hinf)
      refine ⟨q', hfold, ?_, hlen'⟩
      simpa [List.append_assoc] using hsuf'
    · have hstep := step_accum_grow min_points_per_fixation
        min_fixation_size max_fixation_size ⟨q, f0, fxs, false⟩ a rfl hl
      simp only [List.foldl_cons, hstep]
      obtain ⟨q', hfold, hsuf', hlen'⟩ :=
        ih (pre ++ [a]) (q ++ [a]) f0 fxs happ
          (by omega)
          (by
            intro w hw hinf
            refine h w hw ?_
            simpa [List.append_assoc] using hinf)
      refine ⟨q', hfold, ?_, hlen'⟩
      simpa [List.append_assoc] using hsuf'

/-- C8: if no window of `min_points_per_fixation` consecutive input
samples has dispersion extent strictly below `min_fixation_size`, the
start test never passes and no record is ever emitted. -/
theorem no_qualifying_window_no_records (min_points_per_fixation : Nat)
    (hmp : 1 ≤ min_points_per_fixation)
    (min_fixation_size max_fixation_size : ℚ) (input : List Sample)
    (h : ∀ j : Nat, j + min_points_per_fixation ≤ input.length →
      is_fixation_idt ((input.drop j).take min_points_per_fixation)
        min_fixation_size = false) :
    extract_fixations input min_points_per_fixation min_fixation_size
      max_fixation_size = [] := by
  have h' : ∀ w : List Sample, w.length = min_points_per_fixation →
      w <:+: input → is_fixation_idt w min_fixation_size = false := by
    intro w hw hinf
    obtain ⟨s, t, hst⟩ := hinf
    have hj : s.length + min_points_per_fixation ≤ input.length := by
      rw [← hst]
      simp only [List.length_append, hw]
      omega
    have hwin : (input.drop s.length).take min_points_per_fixation = w := by
      rw [← hst, List.append_assoc, List.drop_left, ← hw, List.take_left]
    rw [← hwin]
    exact h s.length hj
  obtain ⟨q', hfold, _, _⟩ :=
    no_start_aux min_points_per_fixation hmp min_fixation_size
      max_fixation_size input [] [] [] []
      List.nil_suffix
      (by simp)
      (by simpa using h')
  unfold extract_fixations runSeg
  rw [show initState = SegState.mk [] [] [] false from rfl, hfold]

/-- Witness for C8: three samples whose two consecutive windows both have
per-axis range 5 ≥ 1; no record is produced. -/
theorem no_qualifying_window_no_records_witness :
    1 ≤ 2 ∧
    (∀ j : Nat, j + 2 ≤ 3 →
      is_fixation_idt
        ((([⟨0,0,0,0,0,0,0⟩, ⟨1,5,5,5,0,0,0⟩, ⟨2,0,0,0,0,0,0⟩] :
          List Sample).drop j).take 2) 1 = false) ∧
    extract_fixations
      [⟨0,0,0,0,0,0,0⟩, ⟨1,5,5,5,0,0,0⟩, ⟨2,0,0,0,0,0,0⟩] 2 1 2 = [] :=
  ⟨by decide,
   by
     intro j hj
     have hj' : j ≤ 1 := by omega
     interval_cases j <;> norm_num [is_fixation_idt, listMax, listMin],
   no_qualifying_window_no_records 2 (by decide) 1 2
     [⟨0,0,0,0,0,0,0⟩, ⟨1,5,5,5,0,0,0⟩, ⟨2,0,0,0,0,0,0⟩]
     (by
       intro j hj
       simp only [List.length_cons, List.length_nil] at hj
       have hj' : j ≤ 1 := by omega
       interval_cases j <;> norm_num [is_fixation_idt, listMax, listMin])⟩

/-! ### C6: ordering of the emitted records -/

lemma mem_lastSlice {n : Nat} {l : List Sample} {x : Sample}
    (h : x ∈ lastSlice n l) : x ∈ l :=
  (lastSlice_suffix n l).sublist.subset h

lemma pairwise_ts_append {b : List Sample} {samp : Sample} {c : ℚ}
    (hb : (b.map Sample.timestamp).Pairwise (· ≤ ·))
    (hbc : ∀ x ∈ b, x.timestamp ≤ c) (hc : c ≤ samp.timestamp) :
    ((b ++ [samp]).map Sample.timestamp).Pairwise (· ≤ ·) := by
  rw [List.map_append]
  refine List.pairwise_append.mpr ⟨hb, by simp, ?_⟩
  intro a ha y hy
  simp only [List.map_cons, List.map_nil, List.mem_singleton] at hy
  obtain ⟨x, hx, rfl⟩ := List.mem_map.mp ha
  rw [hy]
  exact (hbc x hx).trans hc

lemma pairwise_ts_sublist {l' l : List Sample} (hsub : List.Sublist l' l)
    (h : (l.map Sample.timestamp).Pairwise (· ≤ ·)) :
    (l'.map Sample.timestamp).Pairwise (· ≤ ·) :=
  h.sublist (hsub.map Sample.timestamp)

lemma pairwise_head_le_getLast {l : List Sample}
    (h : (l.map Sample.timestamp).Pairwise (· ≤ ·)) (hne : l ≠ []) :
    (l.head hne).timestamp ≤ (l.getLast hne).timestamp := by
  cases l with
  | nil => exact absurd rfl hne
  | cons a t =>
    rcases List.mem_cons.mp (List.getLast_mem hne) with heq | hmem
    · rw [heq]
      simp
    · have h' : (∀ b ∈ t, a.timestamp ≤ b.timestamp) ∧
          (t.map Sample.timestamp).Pairwise (· ≤ ·) := by
        simpa using h
      exact h'.1 _ hmem

/-- One step preserves the timestamp invariant, the bound moving to the
new sample's timestamp. -/
lemma segInv_step (min_points_per_fixation : Nat)
    (hmp : 1 ≤ min_points_per_fixation)
    (min_fixation_size max_fixation_size : ℚ)
    (s : SegState) (samp : Sample) (c : ℚ)
    (hinv : SegInv s c) (hc : c ≤ samp.timestamp) :
    SegInv
      (step min_points_per_fixation min_fixation_size max_fixation_size s
        samp) samp.timestamp := by
  obtain ⟨h1, h2, h3, h4, h5, h6, h7, h8, h9, h10⟩ := hinv
  refine step_cases min_points_per_fixation min_fixation_size
    max_fixation_size s samp (fun st => SegInv st samp.timestamp)
    ?_ ?_ ?_ ?_ ?_
  · -- grow queue below the cap
    intro hp _
    refine ⟨h1, h2, fun r hr => (h3 r hr).trans hc, h4, ?_, h6,
      pairwise_ts_append h7 h9 hc, fun x hx => (h8 x hx).trans hc, ?_, h10⟩
    · intro r hr x hx
      rcases List.mem_append.mp hx with hx | hx
      · exact h5 r hr x hx
      · simp only [List.mem_singleton] at hx
        subst hx
        exact (h3 r hr).trans hc
    · intro x hx
      rcases List.mem_append.mp hx with hx | hx
      · exact (h9 x hx).trans hc
      · simp only [List.mem_singleton] at hx
        subst hx
        exact le_refl _
  · -- start a fixation
    intro hp hlen ht
    have hmem : ∀ x ∈ lastSlice min_points_per_fixation
        (s.gaze_points_queue ++ [samp]), x.timestamp ≤ samp.timestamp := by
      intro x hx
      rcases List.mem_append.mp (mem_lastSlice hx) with hx' | hx'
      · exact (h9 x hx').trans hc
      · simp only [List.mem_singleton] at hx'
        subst hx'
        exact le_refl _
    have hends : ∀ r ∈ s.fixations,
        ∀ x ∈ lastSlice min_points_per_fixation
          (s.gaze_points_queue ++ [samp]), r.«end» ≤ x.timestamp := by
      intro r hr x hx
      rcases List.mem_append.mp (mem_lastSlice hx) with hx' | hx'
      · exact h5 r hr x hx'
      · simp only [List.mem_singleton] at hx'
        subst hx'
        exact (h3 r hr).trans hc
    have hpw : ((lastSlice min_points_per_fixation
        (s.gaze_points_queue ++ [samp])).map Sample.timestamp).Pairwise
          (· ≤ ·) :=
      pairwise_ts_sublist (lastSlice_suffix _ _).sublist
        (pairwise_ts_append h7 h9 hc)
    refine ⟨h1, h2, fun r hr => (h3 r hr).trans hc, hends, hends, hpw, hpw,
      hmem, hmem, ?_⟩
    intro _ hnil
    have hnil' : lastSlice min_points_per_fixation
        (s.gaze_points_queue ++ [samp]) = [] := hnil
    have hll := length_lastSlice min_points_per_fixation
      (s.gaze_points_queue ++ [samp]) (by omega) hlen
    rw [hnil'] at hll
    simp at hll
    omega
  · -- slide the queue
    intro hp hlen ht
    have hmem : ∀ x ∈ lastSlice min_points_per_fixation
        (s.gaze_points_queue ++ [samp]), x.timestamp ≤ samp.timestamp := by
      intro x hx
      rcases List.mem_append.mp (mem_lastSlice hx) with hx' | hx'
      · exact (h9 x hx').trans hc
      · simp only [List.mem_singleton] at hx'
        subst hx'
        exact le_refl _
    have hends : ∀ r ∈ s.fixations,
        ∀ x ∈ lastSlice min_points_per_fixation
          (s.gaze_points_queue ++ [samp]), r.«end» ≤ x.timestamp := by
      intro r hr x hx
      rcases List.mem_append.mp (mem_lastSlice hx) with hx' | hx'
      · exact h5 r hr x hx'
      · simp only [List.mem_singleton] at hx'
        subst hx'
        exact (h3 r hr).trans hc
    have hpw : ((lastSlice min_points_per_fixation
        (s.gaze_points_queue ++ [samp])).map Sample.timestamp).Pairwise
          (· ≤ ·) :=
      pairwise_ts_sublist (lastSlice_suffix _ _).sublist
        (pairwise_ts_append h7 h9 hc)
    exact ⟨h1, h2, fun r hr => (h3 r hr).trans hc, h4, hends, h6, hpw,
      fun x hx => (h8 x hx).trans hc, hmem, h10⟩
  · -- grow the fixation window
    intro hp ht
    refine ⟨h1, h2, fun r hr => (h3 r hr).trans hc, ?_, h5,
      pairwise_ts_append h6 h8 hc, h7, ?_,
      fun x hx => (h9 x hx).trans hc, ?_⟩
    · intro r hr x hx
      rcases List.mem_append.mp hx with hx | hx
      · exact h4 r hr x hx
      · simp only [List.mem_singleton] at hx
        subst hx
        exact (h3 r hr).trans hc
    · intro x hx
      rcases List.mem_append.mp hx with hx | hx
      · exact (h8 x hx).trans hc
      · simp only [List.mem_singleton] at hx
        subst hx
        exact le_refl _
    · intro _
      simp
  · -- end the fixation, emit a record
    intro hp ht
    have hfne : s.fixation ≠ [] := h10 hp
    have hLmem : s.fixation.getLast hfne ∈ s.fixation :=
      List.getLast_mem hfne
    have hrend : (mkFixation s.fixation).«end»
        = (s.fixation.getLast hfne).timestamp :=
      congrArg Sample.timestamp (getLastD_eq_getLast dSample hfne)
    have hrstart : (mkFixation s.fixation).start
        = (s.fixation.head hfne).timestamp :=
      congrArg Sample.timestamp (headD_eq_head dSample hfne)
    have hrend_le_c : (mkFixation s.fixation).«end» ≤ c := by
      rw [hrend]
      exact h8 _ hLmem
    refine ⟨?_, ?_, ?_, ?_, ?_, by simp, by simp, ?_, ?_, ?_⟩
    · rw [List.map_append]
      refine List.pairwise_append.mpr ⟨h1, by simp, ?_⟩
      intro a ha b hb
      simp only [List.map_cons, List.map_nil, List.mem_singleton] at hb
      obtain ⟨r', hr', rfl⟩ := List.mem_map.mp ha
      rw [hb, hrend]
      exact h4 r' hr' _ hLmem
    · intro r' hr'
      rcases List.mem_append.mp hr' with hr' | hr'
      · exact h2 r' hr'
      · simp only [List.mem_singleton] at hr'
        subst hr'
        rw [hrstart, hrend]
        exact pairwise_head_le_getLast h6 hfne
    · intro r' hr'
      rcases List.mem_append.mp hr' with hr' | hr'
      · exact (h3 r' hr').trans hc
      · simp only [List.mem_singleton] at hr'
        subst hr'
        exact hrend_le_c.trans hc
    · intro r' _ x hx
      simp at hx
    · intro r' hr' x hx
      simp only [List.mem_singleton] at hx
      subst hx
      rcases List.mem_append.mp hr' with hr' | hr'
      · exact (h3 r' hr').trans hc
      · simp only [List.mem_singleton] at hr'
        subst hr'
        exact hrend_le_c.trans hc
    · intro x hx
      simp at hx
    · intro x hx
      simp only [List.mem_singleton] at hx
      subst hx
      exact le_refl _
    · intro hpr
      simp at hpr

lemma segInv_init (c : ℚ) : SegInv initState c := by
  simp [SegInv, initState]

lemma segInv_run (min_points_per_fixation : Nat)
    (hmp : 1 ≤ min_points_per_fixation)
    (min_fixation_size max_fixation_size : ℚ) :
    ∀ (input : List Sample) (s : SegState) (c : ℚ),
      SegInv s c →
      (input.map Sample.timestamp).Pairwise (· ≤ ·) →
      (∀ x ∈ input, c ≤ x.timestamp) →
      ∃ c', SegInv
        (input.foldl
          (step min_points_per_fixation min_fixation_size max_fixation_size)
          s) c' := by
  intro input
  induction input with
  | nil =>
    intro s c hinv _ _
    exact ⟨c, hinv⟩
  | cons a t ih =>
    intro s c hinv hsort hlb
    have hc : c ≤ a.timestamp := hlb a (List.mem_cons_self a t)
    have hinv' := segInv_step min_points_per_fixation hmp min_fixation_size
      max_fixation_size s a c hinv hc
    refine ih _ a.timestamp hinv' ?_ ?_
    · exact (List.pairwise_cons.mp (by simpa using hsort)).2
    · intro x hx
      exact (List.pairwise_cons.mp (by simpa using hsort)).1 _
        (List.mem_map_of_mem Sample.timestamp hx)

/-- C6: on an input with non-decreasing timestamps, every emitted record
has `start ≤ end` and the records are sorted by `end` in non-decreasing
order (they appear in the order their terminating sample was processed). -/
theorem output_ordered (min_points_per_fixation : Nat)
    (hmp : 1 ≤ min_points_per_fixation)
    (min_fixation_size max_fixation_size : ℚ) (input : List Sample)
    (hsort : List.Sorted (· ≤ ·) (input.map Sample.timestamp)) :
    List.Sorted (· ≤ ·)
      ((extract_fixations input min_points_per_fixation min_fixation_size
        max_fixation_size).map Fixation.«end»)
    ∧ ∀ r ∈ extract_fixations input min_points_per_fixation
        min_fixation_size max_fixation_size, r.start ≤ r.«end» := by
  cases input with
  | nil => simp [extract_fixations, runSeg, initState]
  | cons a t =>
    have hlb : ∀ x ∈ a :: t, a.timestamp ≤ x.timestamp := by
      intro x hx
      rcases List.mem_cons.mp hx with hx | hx
      · rw [hx]
      · exact (List.pairwise_cons.mp (by simpa using hsort)).1 _
          (List.mem_map_of_mem Sample.timestamp hx)
    obtain ⟨c', hinv⟩ := segInv_run min_points_per_fixation hmp
      min_fixation_size max_fixation_size (a :: t) initState a.timestamp
      (segInv_init _) hsort hlb
    exact ⟨hinv.1, hinv.2.1⟩

/-- Witness for C6: a sorted three-sample input whose third sample ends
the fixation, producing one record. -/
theorem output_ordered_witness :
    1 ≤ 2 ∧
    List.Sorted (· ≤ ·)
      (([⟨0,0,0,0,0,0,0⟩, ⟨1,0,0,0,0,0,0⟩, ⟨2,10,10,10,0,0,0⟩] :
        List Sample).map Sample.timestamp) ∧
    List.Sorted (· ≤ ·)
      ((extract_fixations
        [⟨0,0,0,0,0,0,0⟩, ⟨1,0,0,0,0,0,0⟩, ⟨2,10,10,10,0,0,0⟩]
        2 1 2).map Fixation.«end») :=
  ⟨by decide,
   by norm_num [List.sorted_cons],
   (output_ordered 2 (by decide) 1 2
     [⟨0,0,0,0,0,0,0⟩, ⟨1,0,0,0,0,0,0⟩, ⟨2,10,10,10,0,0,0⟩]
     (by norm_num [List.sorted_cons])).1⟩
